import Mathlib

/-!
Shallow embedding of the runtime core of godebug (src/lib/debug.go): the
execution-tracking state machine, the scope/variable-binding chain and the
operator command loop.  Go interface values are modelled by `GoVal`, pointers
by heap addresses (`GoVal.ptr` into a `Heap`), Go panics by the `Except`
monad, and the process-wide mutable globals of debug.go by the explicit
record `DebugState` threaded through every entry point.  Output written with
fmt is collected in a `List String`; the stdin scanner is a `List String` of
remaining input lines, the empty list standing for end of input.
-/

deriving instance DecidableEq for Except

namespace Godebug

/-- strings.TrimSpace: drop leading and trailing whitespace (structurally
recursive so that concrete runs reduce). -/
def trimString (s : String) : String :=
  ⟨(((s.data.dropWhile Char.isWhitespace).reverse).dropWhile Char.isWhitespace).reverse⟩

/-- Right-trim of trailing whitespace, as strings.TrimRightFunc with
unicode.IsSpace. -/
def trimRightString (s : String) : String :=
  ⟨((s.data.reverse).dropWhile Char.isWhitespace).reverse⟩

/-- Model of a Go interface value as stored in scope maps: a string, an
integer, or a pointer (a heap address). -/
inductive GoVal where
  | str (s : String)
  | int (n : Int)
  | ptr (a : Nat)
deriving DecidableEq

/-- The instrumented program's memory: what each pointer currently points at. -/
def Heap : Type := Nat → GoVal

/-- Go runtime panics that the modelled code can raise. -/
inductive GoPanic where
  | indexOutOfRange
  | reflectElemOfNonPointer
  | progError (msg : String)
deriving DecidableEq

/-- The debugger states `run`, `next`, `step` (const block of debug.go). -/
inductive Mode where
  | run
  | next
  | step
deriving DecidableEq

/-- The process-wide mutable globals of debug.go: `currentState`,
`currentDepth`, `debuggerDepth`, `justLeft`, `currentGoroutine` and
`skipNextElseIfExpr`. -/
structure DebugState where
  currentState : Mode
  currentDepth : Int
  debuggerDepth : Int
  justLeft : Bool
  currentGoroutine : Nat
  skipNextElseIfExpr : Bool
deriving DecidableEq

/-- Context contains debugging context information. -/
structure Context where
  goroutine : Nat
deriving DecidableEq

/-- Scope represents a lexical scope for variable bindings: `vars`, `consts`,
`fileText` and a nullable `parent` (a `root` scope has none). -/
inductive Scope where
  | root (vars : List (String × GoVal)) (consts : List (String × GoVal))
      (fileText : List String)
  | child (vars : List (String × GoVal)) (consts : List (String × GoVal))
      (fileText : List String) (parent : Scope)
deriving DecidableEq

/-- The `vars` map of a scope. -/
def Scope.vars : Scope → List (String × GoVal)
  | .root v _ _ => v
  | .child v _ _ _ => v

/-- The `consts` map of a scope. -/
def Scope.consts : Scope → List (String × GoVal)
  | .root _ c _ => c
  | .child _ c _ _ => c

/-- The `fileText` of a scope. -/
def Scope.fileText : Scope → List String
  | .root _ _ f => f
  | .child _ _ f _ => f

/-- The parent pointer of a scope (nil for a root scope). -/
def Scope.parent : Scope → Option Scope
  | .root _ _ _ => none
  | .child _ _ _ p => some p

/-- Go map read `m[name]` on an association-list model of a map. -/
def lookupA (l : List (String × GoVal)) (name : String) : Option GoVal :=
  (l.find? (fun p => p.1 == name)).map (fun p => p.2)

/-- Go map write `m[name] = v` on an association-list model of a map. -/
def insertBinding (l : List (String × GoVal)) (name : String) (v : GoVal) :
    List (String × GoVal) :=
  (name, v) :: l.filter (fun p => p.1 ≠ name)

/-- dereference: `reflect.ValueOf(i).Elem().Interface()`.  Reads the heap at
a pointer; on a non-pointer value reflect's Elem panics. -/
def dereference (h : Heap) : GoVal → Except GoPanic GoVal
  | .ptr a => .ok (h a)
  | .str _ => .error .reflectElemOfNonPointer
  | .int _ => .error .reflectElemOfNonPointer

/-- getIdent walks the scope chain outward; in each scope it consults `vars`
first (dereferencing the stored pointer to the live value) and then `consts`.
`.ok none` models the Go return `nil, false`. -/
def Scope.getIdent (h : Heap) : Scope → String → Except GoPanic (Option GoVal)
  | .root v c _, name =>
    match lookupA v name with
    | some i =>
      match dereference h i with
      | .error e => .error e
      | .ok w => .ok (some w)
    | none =>
      match lookupA c name with
      | some i => .ok (some i)
      | none => .ok none
  | .child v c _ p, name =>
    match lookupA v name with
    | some i =>
      match dereference h i with
      | .error e => .error e
      | .ok w => .ok (some w)
    | none =>
      match lookupA c name with
      | some i => .ok (some i)
      | none => Scope.getIdent h p name

/-- addIdents: the shared loop of Declare and Constant.  Walks the argument
list two at a time; panics when a name position does not hold a string, or
when the list length is odd. -/
def addIdents (dst : List (String × GoVal)) (funcName : String) :
    List GoVal → Except GoPanic (List (String × GoVal))
  | [] => .ok dst
  | [_] =>
    .error (.progError
      ("programming error: called " ++ funcName ++ " with odd number of arguments"))
  | a :: b :: rest =>
    match a with
    | .str name => addIdents (insertBinding dst name b) funcName rest
    | _ =>
      .error (.progError
        ("programming error: got odd-numbered argument to " ++ funcName ++
          " that was not a string"))

/-- Replace the `vars` map of a scope. -/
def Scope.withVars : Scope → List (String × GoVal) → Scope
  | .root _ c f, m => .root m c f
  | .child _ c f p, m => .child m c f p

/-- Replace the `consts` map of a scope. -/
def Scope.withConsts : Scope → List (String × GoVal) → Scope
  | .root v _ f, m => .root v m f
  | .child v _ f p, m => .child v m f p

/-- Declare creates new variable bindings in s from a list of name, value
pairs; the values are pointers (heap addresses) so the scope tracks changes. -/
def Scope.Declare (s : Scope) (namevalue : List GoVal) : Except GoPanic Scope :=
  match addIdents s.vars "Declare" namevalue with
  | .error e => .error e
  | .ok m => .ok (s.withVars m)

/-- Constant is like Declare, but for constants; values are passed directly. -/
def Scope.Constant (s : Scope) (namevalue : List GoVal) : Except GoPanic Scope :=
  match addIdents s.consts "Constant" namevalue with
  | .error e => .error e
  | .ok m => .ok (s.withConsts m)

/-- shouldPause: true iff the reporting context is the followed goroutine and
the state is step, or is next with currentDepth equal to debuggerDepth. -/
def shouldPause (st : DebugState) (c : Context) : Bool :=
  st.currentGoroutine == c.goroutine &&
    (st.currentState == Mode.step ||
      (st.currentState == Mode.next && st.currentDepth == st.debuggerDepth))

/-- Rendering of a value by fmt's exhaustive formatter, as used by print. -/
def formatValue : GoVal → String
  | .str s => "\"" ++ s ++ "\""
  | .int n => toString n
  | .ptr a => "&cell" ++ toString a

/-- Accumulating tokenizer over the characters of a line. -/
def fieldsAux : List Char → List Char → List String
  | [], acc => if acc.isEmpty then [] else [⟨acc.reverse⟩]
  | c :: rest, acc =>
    if c.isWhitespace then
      if acc.isEmpty then fieldsAux rest []
      else (⟨acc.reverse⟩ : String) :: fieldsAux rest []
    else fieldsAux rest (c :: acc)

/-- The whitespace-separated tokens of a line, as fmt.Sscan reads them. -/
def fields (s : String) : List String :=
  fieldsAux s.data []

/-- The help text printed by the help command. -/
def helpText : String :=
  "\nCommands:\n    (h) help: Print this help.\n    (n) next: Run the next line.\n" ++
  "    (s) step: Run for one step.\n    (c) continue: Run until the next breakpoint.\n" ++
  "    (l) list: Show the current line in context of the code around it.\n" ++
  "    (p) print <var>: Print a variable.\n\nCommands may be given by their full " ++
  "name or by their parenthesized abbreviation.\nAny input that is not one of the " ++
  "above commands is interpreted as a variable name.\n"

/-- printContext: the block printed by the list command — the current line
with `contextCount` lines of context above and below, clipped to the file,
the current line marked. -/
def printContext (lines : List String) (line : Int) (contextCount : Nat) :
    List String :=
  let l0 := line - 1
  [""] ++
    ((List.range (2 * contextCount + 1)).filterMap (fun j =>
      let i : Int := l0 - contextCount + j
      let pre := if i = l0 then "--> " else "    "
      if 0 ≤ i ∧ i < (lines.length : Int) then
        some (trimRightString (pre ++ lines.getD i.toNat ""))
      else none)) ++
    [""]

/-- waitForInput: the blocking operator command loop.  Consumes one input
line per iteration; returns the new debugger state, the collected output and
the remaining input.  The empty input list models end of input on stdin. -/
def waitForInput (h : Heap) (scope : Scope) (line : Int) (st : DebugState) :
    List String → Except GoPanic (DebugState × List String × List String)
  | [] =>
    .ok ({ st with currentState := Mode.run },
      ["(godebug) ", "quitting session"], [])
  | s :: rest =>
    if s = "?" ∨ s = "h" ∨ s = "help" then
      match waitForInput h scope line st rest with
      | .error e => .error e
      | .ok (st', outs, rem) => .ok (st', "(godebug) " :: helpText :: outs, rem)
    else if s = "n" ∨ s = "next" then
      .ok ({ st with currentState := Mode.next }, ["(godebug) "], rest)
    else if s = "s" ∨ s = "step" then
      .ok ({ st with currentState := Mode.step }, ["(godebug) "], rest)
    else if s = "c" ∨ s = "continue" then
      .ok ({ st with currentState := Mode.run }, ["(godebug) "], rest)
    else if s = "l" ∨ s = "list" then
      match waitForInput h scope line st rest with
      | .error e => .error e
      | .ok (st', outs, rem) =>
        .ok (st', "(godebug) " :: (printContext scope.fileText line 4 ++ outs), rem)
    else
      match scope.getIdent h (trimString s) with
      | .error e => .error e
      | .ok (some v) =>
        match waitForInput h scope line st rest with
        | .error e => .error e
        | .ok (st', outs, rem) =>
          .ok (st', "(godebug) " :: formatValue v :: outs, rem)
      | .ok none =>
        let toks := fields s
        if 2 ≤ toks.length ∧ (toks.getD 0 "" = "p" ∨ toks.getD 0 "" = "print") then
          match scope.getIdent h (trimString (toks.getD 1 "")) with
          | .error e => .error e
          | .ok (some v) =>
            match waitForInput h scope line st rest with
            | .error e => .error e
            | .ok (st', outs, rem) =>
              .ok (st', "(godebug) " :: formatValue v :: outs, rem)
          | .ok none =>
            match waitForInput h scope line st rest with
            | .error e => .error e
            | .ok (st', outs, rem) =>
              .ok (st',
                "(godebug) " ::
                  ("Command not recognized, sorry! You typed: \"" ++ s ++ "\"") :: outs,
                rem)
        else
          match waitForInput h scope line st rest with
          | .error e => .error e
          | .ok (st', outs, rem) =>
            .ok (st',
              "(godebug) " ::
                ("Command not recognized, sorry! You typed: \"" ++ s ++ "\"") :: outs,
              rem)

/-- Result of a reporting entry point: the new debugger state, the output,
the remaining command input and whether the command loop was invoked. -/
abbrev EventResult := Except GoPanic (DebugState × List String × List String × Bool)

/-- Indexing `fileText[line-1]`: Go panics when the index is negative or past
the end. -/
def indexFileText (lines : List String) (i : Int) : Option String :=
  if 0 ≤ i ∧ i < (lines.length : Int) then some (lines.getD i.toNat "") else none

/-- lineWithPrefix: when shouldPause holds, records the pause depth, clears
justLeft, prints the trimmed source line `fileText[line-1]` (unchecked index)
and enters the command loop; otherwise does nothing. -/
def lineWithPrefix (h : Heap) (c : Context) (s : Scope) (line : Int)
    (pre : String) (st : DebugState) (inp : List String) : EventResult :=
  if shouldPause st c then
    let st1 := { st with debuggerDepth := st.currentDepth, justLeft := false }
    match indexFileText s.fileText (line - 1) with
    | none => .error .indexOutOfRange
    | some txt =>
      match waitForInput h s line st1 inp with
      | .error e => .error e
      | .ok (st2, outs, rem) =>
        .ok (st2, ("-> " ++ pre ++ trimString txt) :: outs, rem, true)
  else .ok (st, [], inp, false)

/-- Line marks a normal line where the debugger might pause. -/
def Line (h : Heap) (c : Context) (s : Scope) (line : Int) (st : DebugState)
    (inp : List String) : EventResult :=
  lineWithPrefix h c s line "" st inp

/-- Case marks a case clause (its caseSentinel return value is dropped). -/
def Case (h : Heap) (c : Context) (s : Scope) (line : Int) (st : DebugState)
    (inp : List String) : EventResult :=
  Line h c s line st inp

/-- Comm marks a case in a select statement (its nil channel is dropped). -/
def Comm (h : Heap) (c : Context) (s : Scope) (line : Int) (st : DebugState)
    (inp : List String) : EventResult :=
  Line h c s line st inp

/-- EndSelect marks the end of a select statement: prints an informational
message when shouldPause holds, and never enters the command loop. -/
def EndSelect (c : Context) (st : DebugState) (inp : List String) : EventResult :=
  .ok (st,
    if shouldPause st c then
      ["< All channel expressions evaluated. Choosing case to proceed. >"]
    else [],
    inp, false)

/-- Select marks a select statement: returns unless shouldPause holds, else
reports its line and (when the state after the pause is not run) prints an
informational message. -/
def Select (h : Heap) (c : Context) (s : Scope) (line : Int) (st : DebugState)
    (inp : List String) : EventResult :=
  if shouldPause st c then
    match Line h c s line st inp with
    | .error e => .error e
    | .ok (st', outs, rem, p) =>
      if st'.currentState ≠ Mode.run then
        .ok (st',
          outs ++ ["< Evaluating channel expressions and RHS of send expressions. >"],
          rem, p)
      else .ok (st', outs, rem, p)
  else .ok (st, [], inp, false)

/-- Defer marks a defer statement: a line report with a marking prefix. -/
def Defer (h : Heap) (c : Context) (s : Scope) (line : Int) (st : DebugState)
    (inp : List String) : EventResult :=
  lineWithPrefix h c s line "<Running deferred function>: " st inp

/-- ElseIfSimpleStmt marks a simple statement preceding an else-if
expression: a line report, after which the skip flag is set when the state
(after any pause) is next. -/
def ElseIfSimpleStmt (h : Heap) (c : Context) (s : Scope) (line : Int)
    (st : DebugState) (inp : List String) : EventResult :=
  match Line h c s line st inp with
  | .error e => .error e
  | .ok (st', outs, rem, p) =>
    if st'.currentState = Mode.next then
      .ok ({ st' with skipNextElseIfExpr := true }, outs, rem, p)
    else .ok (st', outs, rem, p)

/-- ElseIfExpr marks an else-if expression: returns when the reporting
goroutine is not followed; else consumes the skip flag when set (suppressing
the report), and otherwise reports the line. -/
def ElseIfExpr (h : Heap) (c : Context) (s : Scope) (line : Int)
    (st : DebugState) (inp : List String) : EventResult :=
  if st.currentGoroutine ≠ c.goroutine then .ok (st, [], inp, false)
  else if st.skipNextElseIfExpr then
    .ok ({ st with skipNextElseIfExpr := false }, [], inp, false)
  else Line h c s line st inp

/-- EnterFunc marks the beginning of a function.  `val` is the result of the
goroutine-local lookup `context.GetValue(goroutineKey)`: `none` when the
registry has never seen this goroutine (the code then acquires an identity,
runs fn itself and reports proceed = false), `some g` when it has.  Returns
the updated state, the context and proceed. -/
def EnterFunc (st : DebugState) (val : Option Nat) :
    DebugState × Option Context × Bool :=
  match val with
  | none => (st, none, false)
  | some g =>
    if g = st.currentGoroutine ∧ st.currentState ≠ Mode.run then
      let st1 :=
        if st.justLeft then
          { st with debuggerDepth := st.debuggerDepth + 1, justLeft := false }
        else st
      ({ st1 with currentDepth := st1.currentDepth + 1 }, some ⟨g⟩, true)
    else (st, some ⟨g⟩, true)

/-- EnterFuncLit is like EnterFunc, but for function literals; the state
bookkeeping is identical, only how the context reaches fn differs. -/
def EnterFuncLit (st : DebugState) (val : Option Nat) :
    DebugState × Option Context × Bool :=
  match val with
  | none => (st, none, false)
  | some g =>
    if g = st.currentGoroutine ∧ st.currentState ≠ Mode.run then
      let st1 :=
        if st.justLeft then
          { st with debuggerDepth := st.debuggerDepth + 1, justLeft := false }
        else st
      ({ st1 with currentDepth := st1.currentDepth + 1 }, some ⟨g⟩, true)
    else (st, some ⟨g⟩, true)

/-- ExitFunc marks the end of a function. -/
def ExitFunc (st : DebugState) (ctx : Context) : DebugState :=
  if st.currentGoroutine ≠ ctx.goroutine then st
  else if st.currentState = Mode.run then st
  else
    let st1 :=
      if st.currentState = Mode.next ∧ st.currentDepth = st.debuggerDepth then
        { st with debuggerDepth := st.debuggerDepth - 1, justLeft := true }
      else st
    { st1 with currentDepth := st1.currentDepth - 1 }

/-- SetTraceGen is the generated entrypoint to the debugger: a no-op unless
the state is run, in which case it follows ctx's goroutine and steps. -/
def SetTraceGen (st : DebugState) (ctx : Context) : DebugState :=
  if st.currentState ≠ Mode.run then st
  else { st with currentGoroutine := ctx.goroutine, currentState := Mode.step }

/-- One reported event at the instrumentation call surface (the Event Entry
Points of the spec): function entry/exit, line, branch arm, select markers,
deferred call and else-if markers.  For the enter events the `Option Nat` is
the goroutine-registry lookup result. -/
inductive Event where
  | enter (val : Option Nat)
  | enterLit (val : Option Nat)
  | exitF (c : Context)
  | lineE (c : Context) (s : Scope) (line : Int)
  | caseE (c : Context) (s : Scope) (line : Int)
  | commE (c : Context) (s : Scope) (line : Int)
  | selectE (c : Context) (s : Scope) (line : Int)
  | endSelectE (c : Context)
  | deferE (c : Context) (s : Scope) (line : Int)
  | elseIfSimpleStmtE (c : Context) (s : Scope) (line : Int)
  | elseIfExprE (c : Context) (s : Scope) (line : Int)

/-- The debugger state together with the remaining command input. -/
abbrev ProcState := DebugState × List String

/-- Dispatch one reported event; yields the new process state, the output and
whether the command loop was invoked (a pause happened). -/
def applyEvent (h : Heap) (ps : ProcState) :
    Event → Except GoPanic (ProcState × List String × Bool)
  | .enter val => .ok (((EnterFunc ps.1 val).1, ps.2), [], false)
  | .enterLit val => .ok (((EnterFuncLit ps.1 val).1, ps.2), [], false)
  | .exitF c => .ok ((ExitFunc ps.1 c, ps.2), [], false)
  | .lineE c s line =>
    match Line h c s line ps.1 ps.2 with
    | .error e => .error e
    | .ok (st', outs, rem, p) => .ok ((st', rem), outs, p)
  | .caseE c s line =>
    match Case h c s line ps.1 ps.2 with
    | .error e => .error e
    | .ok (st', outs, rem, p) => .ok ((st', rem), outs, p)
  | .commE c s line =>
    match Comm h c s line ps.1 ps.2 with
    | .error e => .error e
    | .ok (st', outs, rem, p) => .ok ((st', rem), outs, p)
  | .selectE c s line =>
    match Select h c s line ps.1 ps.2 with
    | .error e => .error e
    | .ok (st', outs, rem, p) => .ok ((st', rem), outs, p)
  | .endSelectE c =>
    match EndSelect c ps.1 ps.2 with
    | .error e => .error e
    | .ok (st', outs, rem, p) => .ok ((st', rem), outs, p)
  | .deferE c s line =>
    match Defer h c s line ps.1 ps.2 with
    | .error e => .error e
    | .ok (st', outs, rem, p) => .ok ((st', rem), outs, p)
  | .elseIfSimpleStmtE c s line =>
    match ElseIfSimpleStmt h c s line ps.1 ps.2 with
    | .error e => .error e
    | .ok (st', outs, rem, p) => .ok ((st', rem), outs, p)
  | .elseIfExprE c s line =>
    match ElseIfExpr h c s line ps.1 ps.2 with
    | .error e => .error e
    | .ok (st', outs, rem, p) => .ok ((st', rem), outs, p)

/-- Run a sequence of reported events; the Bool records whether any of them
invoked the command loop. -/
def runTrace (h : Heap) : ProcState → List Event → Except GoPanic (ProcState × Bool)
  | ps, [] => .ok (ps, false)
  | ps, e :: rest =>
    match applyEvent h ps e with
    | .error er => .error er
    | .ok (ps', _, paused) =>
      match runTrace h ps' rest with
      | .error er => .error er
      | .ok (psf, p) => .ok (psf, paused || p)

/-- The scope chain as a list, innermost scope first. -/
def scopeChain : Scope → List Scope
  | .root v c f => [Scope.root v c f]
  | .child v c f p => Scope.child v c f p :: scopeChain p

/-- Whether a single scope binds a name, in its vars or in its consts. -/
def bindsName (sc : Scope) (name : String) : Bool :=
  (lookupA sc.vars name).isSome || (lookupA sc.consts name).isSome

/-- Resolution against a list of scopes ordered innermost first: the first
scope that binds the name decides; within it the variable slots are checked
first, dereferencing to the live value, then the constants. -/
def resolveChain (h : Heap) (name : String) :
    List Scope → Except GoPanic (Option GoVal)
  | [] => .ok none
  | sc :: rest =>
    if bindsName sc name then
      match lookupA sc.vars name with
      | some i =>
        match dereference h i with
        | .error e => .error e
        | .ok w => .ok (some w)
      | none =>
        match lookupA sc.consts name with
        | some i => .ok (some i)
        | none => .ok none
    else resolveChain h name rest

/-- Modelled from the spec's words for identifier lookup: resolve to the
innermost scope of the chain that binds the name; within that scope check the
variable slots first, dereferencing to the live value, and then the
constants. -/
def specResolve (h : Heap) (s : Scope) (name : String) :
    Except GoPanic (Option GoVal) :=
  resolveChain h name (scopeChain s)

/-- parseLines: split on newlines, a trailing newline is not a separate line. -/
def parseLines (text : String) : List String :=
  let lines := text.splitOn "\n"
  if lines.length > 0 && lines.getLast! == "" then lines.dropLast else lines

/-- EnteringNewScope returns a new root Scope for a fresh function activation. -/
def EnteringNewScope (fileText : String) : Scope :=
  .root [] [] (parseLines fileText)

/-- EnteringNewChildScope returns a new Scope that is the child of s, sharing
its fileText. -/
def Scope.EnteringNewChildScope (s : Scope) : Scope :=
  .child [] [] s.fileText s


/-! Spec-side predicates and concrete example data used by the claim
theorems and their witnesses. -/

/-- Whether a value is a Go string (a legal name position in Declare and
Constant argument lists). -/
def isStrVal : GoVal → Bool
  | .str _ => true
  | .int _ => false
  | .ptr _ => false

/-- A Declare or Constant argument list is malformed when it has an odd
number of elements or some element in a name (even-index) position is not a
string. -/
def malformedArgs (nv : List GoVal) : Prop :=
  nv.length % 2 = 1 ∨
    ∃ i, i < nv.length ∧ i % 2 = 0 ∧ isStrVal (nv.getD i (.str "")) = false

/-- The name/value pairs of a well-formed argument list. -/
def pairsWF : List GoVal → List (String × GoVal)
  | .str n :: v :: rest => (n, v) :: pairsWF rest
  | _ => []

/-- Folding name/value pairs into a binding map via Go map writes. -/
def insertAll (dst : List (String × GoVal)) (ps : List (String × GoVal)) :
    List (String × GoVal) :=
  ps.foldl (fun m p => insertBinding m p.1 p.2) dst

/-- An event result leaves the depth counters unchanged, consumes no input
and does not invoke the command loop. -/
def depthsPreservedNoPause (st : DebugState) (inp : List String)
    (r : EventResult) : Prop :=
  ∃ st' out, r = .ok (st', out, inp, false) ∧
    st'.currentDepth = st.currentDepth ∧ st'.debuggerDepth = st.debuggerDepth

/-- A concrete state used by the C2 witness: next mode, justLeft set,
following goroutine 4. -/
def c2State : DebugState := ⟨Mode.next, 1, 0, true, 4, false⟩

/-- A concrete state used by the C3 witness: next mode at the pause depth,
following goroutine 3. -/
def c3State : DebugState := ⟨Mode.next, 2, 2, false, 3, false⟩

/-- The heap for the C4 witness (contents irrelevant). -/
def heapC4 : Heap := fun _ => .int 0

/-- A concrete state used by the C4 witness: step mode following
goroutine 0. -/
def c4State : DebugState := ⟨Mode.step, 3, 1, false, 0, false⟩

/-- The heap for the C5 scenario (contents irrelevant). -/
def heapC5 : Heap := fun _ => .int 0

/-- The scope for the C5 scenario. -/
def scopeC5 : Scope := .root [] [] ["guard line"]

/-- The C5 state before the guard report: next mode following goroutine 0,
currentDepth 1 above debuggerDepth 0 (so no report fires), flag clear. -/
def c5StateA : DebugState := ⟨Mode.next, 1, 0, false, 0, false⟩

/-- The C5 state after the guard report: as c5StateA with the skip flag set. -/
def c5StateB : DebugState := ⟨Mode.next, 1, 0, false, 0, true⟩

/-- A concrete state used by the C6 witness: free-running, goroutine 7
recorded as followed from an earlier session. -/
def c6State : DebugState := ⟨Mode.run, 0, 0, false, 7, false⟩

/-- The heap for the C8 witness (contents irrelevant). -/
def heapC8 : Heap := fun _ => .int 0

/-- The process state for the C8 witness: run mode, no input left. -/
def c8Proc : ProcState := (⟨Mode.run, 0, 0, false, 0, false⟩, [])

/-- The heap for the C9 shadowing example: cell 0 holds 10, cell 1 holds 20. -/
def heapC9 : Heap := fun a => if a = 0 then .int 10 else .int 20

/-- The parent scope of the C9 example: variable x bound to cell 1. -/
def parentC9 : Scope := .root [("x", .ptr 1)] [] ["parent line"]

/-- The child scope of the C9 example: variable x bound to cell 0, and a
constant x that must lose to the variable slot. -/
def childC9 : Scope := .child [("x", .ptr 0)] [("x", .int 99)] ["parent line"] parentC9

/-- The heap for the C10 witness (contents irrelevant). -/
def heapC10 : Heap := fun _ => .int 0

/-- A concrete state used by the C10 witness: step mode following
goroutine 0. -/
def c10State : DebugState := ⟨Mode.step, 0, 0, false, 0, false⟩

/-! Helper lemmas shared by the claim theorems. -/

/-- Unfolding of the pause predicate into a proposition. -/
theorem shouldPause_true_iff (st : DebugState) (c : Context) :
    shouldPause st c = true ↔
      (c.goroutine = st.currentGoroutine ∧
        (st.currentState = Mode.step ∨
          (st.currentState = Mode.next ∧ st.currentDepth = st.debuggerDepth))) := by
  simp only [shouldPause, Bool.and_eq_true, Bool.or_eq_true, beq_iff_eq]
  constructor
  · rintro ⟨hg, hm⟩
    exact ⟨hg.symm, hm⟩
  · rintro ⟨hg, hm⟩
    exact ⟨hg.symm, hm⟩

/-- A non-followed goroutine never satisfies the pause predicate. -/
theorem shouldPause_false_of_ne (st : DebugState) (c : Context)
    (hne : c.goroutine ≠ st.currentGoroutine) : shouldPause st c = false := by
  cases hb : shouldPause st c
  · rfl
  · exact absurd ((shouldPause_true_iff st c).mp hb).1 hne

/-- In run state the pause predicate is false for every context. -/
theorem shouldPause_false_of_run (st : DebugState) (c : Context)
    (hrun : st.currentState = Mode.run) : shouldPause st c = false := by
  cases hb : shouldPause st c
  · rfl
  · rcases ((shouldPause_true_iff st c).mp hb).2 with hm | hm <;>
      rw [hrun] at hm <;> simp_all

/-- When the pause predicate is false, a line report does nothing. -/
theorem lineWithPrefix_of_not_pause (h : Heap) (c : Context) (s : Scope)
    (line : Int) (pre : String) (st : DebugState) (inp : List String)
    (hsp : shouldPause st c = false) :
    lineWithPrefix h c s line pre st inp = .ok (st, [], inp, false) := by
  simp [ lineWithPrefix, hsp]

/-- Unfolding of malformedness over a leading name/value pair. -/
theorem malformedArgs_cons_cons (a b : GoVal) (rest : List GoVal) :
    malformedArgs (a :: b :: rest) ↔ (isStrVal a = false ∨ malformedArgs rest) := by
  simp only [malformedArgs, List.length_cons]
  constructor
  · rintro (hodd | ⟨i, hi, hev, hbad⟩)
    · exact Or.inr (Or.inl (by omega))
    · match i, hev with
      | 0, _ => exact Or.inl hbad
      | 1, hev => omega
      | (j + 2), hev =>
        exact Or.inr (Or.inr ⟨j, by omega, by omega,
          by simpa [List.getD_cons_succ] using hbad⟩)
  · rintro (ha | hodd | ⟨j, hj, hev, hbad⟩)
    · exact Or.inr ⟨0, by omega, by omega, ha⟩
    · exact Or.inl (by omega)
    · exact Or.inr ⟨j + 2, by omega, by omega,
        by simpa [List.getD_cons_succ] using hbad⟩

/-- addIdents panics exactly on malformed argument lists. -/
theorem addIdents_error_iff :
    ∀ (nv : List GoVal) (dst : List (String × GoVal)) (fn : String),
      (∃ e, addIdents dst fn nv = .error e) ↔ malformedArgs nv
  | [], dst, fn => by
    simp [addIdents, malformedArgs]
  | [a], dst, fn => by
    simp only [addIdents, malformedArgs]
    constructor
    · intro
      exact Or.inl (by simp)
    · intro
      exact ⟨_, rfl⟩
  | a :: b :: rest, dst, fn => by
    rw [malformedArgs_cons_cons]
    cases a with
    | str n =>
      rw [show addIdents dst fn (GoVal.str n :: b :: rest) =
            addIdents (insertBinding dst n b) fn rest from rfl,
        addIdents_error_iff rest (insertBinding dst n b) fn]
      simp [isStrVal]
    | int m =>
      constructor
      · intro
        exact Or.inl rfl
      · intro
        exact ⟨_, rfl⟩
    | ptr m =>
      constructor
      · intro
        exact Or.inl rfl
      · intro
        exact ⟨_, rfl⟩

/-- On a well-formed argument list addIdents adds every binding and
succeeds. -/
theorem addIdents_ok_of_wf :
    ∀ (nv : List GoVal) (dst : List (String × GoVal)) (fn : String),
      ¬malformedArgs nv → addIdents dst fn nv = .ok (insertAll dst (pairsWF nv))
  | [], dst, fn, _ => by
    simp [addIdents, pairsWF, insertAll]
  | [a], dst, fn, hwf => by
    exact absurd (Or.inl (by simp)) hwf
  | a :: b :: rest, dst, fn, hwf => by
    rw [malformedArgs_cons_cons] at hwf
    push_neg at hwf
    cases a with
    | str n =>
      rw [show addIdents dst fn (GoVal.str n :: b :: rest) =
            addIdents (insertBinding dst n b) fn rest from rfl,
        addIdents_ok_of_wf rest (insertBinding dst n b) fn hwf.2]
      simp [pairsWF, insertAll]
    | int m => exact absurd rfl hwf.1
    | ptr m => exact absurd rfl hwf.1

/-- getIdent implements resolution to the innermost binding scope with
variable slots consulted before constants. -/
theorem getIdent_eq_specResolve :
    ∀ (h : Heap) (s : Scope) (name : String),
      Scope.getIdent h s name = specResolve h s name
  | h, .root v c f, name => by
    cases hv : lookupA v name with
    | some i =>
      simp [Scope.getIdent, specResolve, resolveChain, scopeChain, bindsName,
        Scope.vars, Scope.consts, hv]
    | none =>
      cases hc : lookupA c name <;>
        simp [Scope.getIdent, specResolve, resolveChain, scopeChain, bindsName,
          Scope.vars, Scope.consts, hv, hc]
  | h, .child v c f p, name => by
    have ih := getIdent_eq_specResolve h p name
    rw [specResolve] at ih
    cases hv : lookupA v name with
    | some i =>
      simp [Scope.getIdent, specResolve, resolveChain, scopeChain, bindsName,
        Scope.vars, Scope.consts, hv]
    | none =>
      cases hc : lookupA c name <;>
        simp [Scope.getIdent, specResolve, resolveChain, scopeChain, bindsName,
          Scope.vars, Scope.consts, hv, hc, ih]

/-- Identifier lookup never raises an index-out-of-range panic (its only
panic is reflect's Elem on a non-pointer). -/
theorem getIdent_ne_indexErr :
    ∀ (h : Heap) (s : Scope) (name : String),
      Scope.getIdent h s name ≠ .error GoPanic.indexOutOfRange
  | h, .root v c f, name => by
    cases hv : lookupA v name with
    | some i => cases i <;> simp [Scope.getIdent, hv, dereference]
    | none => cases hc : lookupA c name <;> simp [Scope.getIdent, hv, hc]
  | h, .child v c f p, name => by
    cases hv : lookupA v name with
    | some i => cases i <;> simp [Scope.getIdent, hv, dereference]
    | none =>
      cases hc : lookupA c name with
      | some i => simp [Scope.getIdent, hv, hc]
      | none =>
        simpa [Scope.getIdent, hv, hc] using getIdent_ne_indexErr h p name

/-- The command loop never raises an index-out-of-range panic: list clips to
the file bounds and its only panic source is identifier lookup. -/
theorem waitForInput_ne_indexErr :
    ∀ (inp : List String) (h : Heap) (scope : Scope) (line : Int)
      (st : DebugState),
      waitForInput h scope line st inp ≠ .error GoPanic.indexOutOfRange
  | [], h, scope, line, st => by simp [waitForInput]
  | s0 :: rest, h, scope, line, st => by
    have ih := waitForInput_ne_indexErr rest h scope line st
    have hg1 := getIdent_ne_indexErr h scope (trimString s0)
    have hg2 := getIdent_ne_indexErr h scope (trimString ((fields s0).getD 1 ""))
    simp only [waitForInput]
    repeat' split
    all_goals simp_all

/-- In run state EnterFunc changes no session state. -/
theorem EnterFunc_run (st : DebugState) (val : Option Nat)
    (hrun : st.currentState = Mode.run) : (EnterFunc st val).1 = st := by
  cases val with
  | none => rfl
  | some g =>
    have hcond : ¬(g = st.currentGoroutine ∧ st.currentState ≠ Mode.run) :=
      fun hh => hh.2 hrun
    simp [EnterFunc, hcond]

/-- In run state EnterFuncLit changes no session state. -/
theorem EnterFuncLit_run (st : DebugState) (val : Option Nat)
    (hrun : st.currentState = Mode.run) : (EnterFuncLit st val).1 = st := by
  cases val with
  | none => rfl
  | some g =>
    have hcond : ¬(g = st.currentGoroutine ∧ st.currentState ≠ Mode.run) :=
      fun hh => hh.2 hrun
    simp [EnterFuncLit, hcond]

/-- In run state ExitFunc changes no session state. -/
theorem ExitFunc_run (st : DebugState) (c : Context)
    (hrun : st.currentState = Mode.run) : ExitFunc st c = st := by
  by_cases hg : st.currentGoroutine ≠ c.goroutine <;> simp [ExitFunc, hg, hrun]

/-- In run state every reported event succeeds, does not invoke the command
loop, consumes no input and leaves the state in run state. -/
theorem applyEvent_run (h : Heap) (ps : ProcState) (ev : Event)
    (hrun : ps.1.currentState = Mode.run) :
    ∃ st' out, applyEvent h ps ev = .ok ((st', ps.2), out, false) ∧
      st'.currentState = Mode.run := by
  obtain ⟨st, inp⟩ := ps
  cases ev with
  | enter val =>
    exact ⟨st, [], by simp [applyEvent, EnterFunc_run st val hrun], hrun⟩
  | enterLit val =>
    exact ⟨st, [], by simp [applyEvent, EnterFuncLit_run st val hrun], hrun⟩
  | exitF c =>
    exact ⟨st, [], by simp [applyEvent, ExitFunc_run st c hrun], hrun⟩
  | lineE c s ln =>
    have hli := lineWithPrefix_of_not_pause h c s ln "" st inp
      (shouldPause_false_of_run st c hrun)
    exact ⟨st, [], by simp [applyEvent, Line, hli], hrun⟩
  | caseE c s ln =>
    have hli := lineWithPrefix_of_not_pause h c s ln "" st inp
      (shouldPause_false_of_run st c hrun)
    exact ⟨st, [], by simp [applyEvent, Case, Line, hli], hrun⟩
  | commE c s ln =>
    have hli := lineWithPrefix_of_not_pause h c s ln "" st inp
      (shouldPause_false_of_run st c hrun)
    exact ⟨st, [], by simp [applyEvent, Comm, Line, hli], hrun⟩
  | selectE c s ln =>
    have hsp := shouldPause_false_of_run st c hrun
    exact ⟨st, [], by simp [applyEvent, Select, hsp], hrun⟩
  | endSelectE c =>
    have hsp := shouldPause_false_of_run st c hrun
    exact ⟨st, [], by simp [applyEvent, EndSelect, hsp], hrun⟩
  | deferE c s ln =>
    have hli := lineWithPrefix_of_not_pause h c s ln
      "<Running deferred function>: " st inp (shouldPause_false_of_run st c hrun)
    exact ⟨st, [], by simp [applyEvent, Defer, hli], hrun⟩
  | elseIfSimpleStmtE c s ln =>
    have hli := lineWithPrefix_of_not_pause h c s ln "" st inp
      (shouldPause_false_of_run st c hrun)
    have hnx : ¬st.currentState = Mode.next := by rw [hrun]; simp
    exact ⟨st, [], by simp [applyEvent, ElseIfSimpleStmt, Line, hli, hnx], hrun⟩
  | elseIfExprE c s ln =>
    by_cases hg : st.currentGoroutine ≠ c.goroutine
    · exact ⟨st, [], by simp [applyEvent, ElseIfExpr, hg], hrun⟩
    · by_cases hskip : st.skipNextElseIfExpr
      · exact ⟨{ st with skipNextElseIfExpr := false }, [],
          by simp [applyEvent, ElseIfExpr, hg, hskip], hrun⟩
      · have hli := lineWithPrefix_of_not_pause h c s ln "" st inp
          (shouldPause_false_of_run st c hrun)
        exact ⟨st, [], by simp [applyEvent, ElseIfExpr, Line, hg, hskip, hli], hrun⟩

/-- In run state no trace of reported events ever pauses, and the state stays
in run state. -/
theorem runTrace_run :
    ∀ (evs : List Event) (h : Heap) (ps : ProcState),
      ps.1.currentState = Mode.run →
      ∃ psf, runTrace h ps evs = .ok (psf, false) ∧
        psf.1.currentState = Mode.run
  | [], h, ps, hrun => ⟨ps, rfl, hrun⟩
  | e :: rest, h, ps, hrun => by
    obtain ⟨st', out, happ, hrun2⟩ := applyEvent_run h ps e hrun
    obtain ⟨psf, hrt, hrunf⟩ := runTrace_run rest h (st', ps.2) hrun2
    exact ⟨psf, by simp [runTrace, happ, hrt], hrunf⟩

/-! The claim theorems, C1 to C10, with their witnesses. -/

/-- C1: for every context c, shouldPause(c) returns true if and only if c's
task identity equals the currently followed task AND (the mode is step, OR
the mode is next and currentDepth equals pauseDepth); it returns false in
every other state. -/
theorem C1_shouldPause_iff (st : DebugState) (c : Context) :
    shouldPause st c = true ↔
      (c.goroutine = st.currentGoroutine ∧
        (st.currentState = Mode.step ∨
          (st.currentState = Mode.next ∧ st.currentDepth = st.debuggerDepth))) :=
  shouldPause_true_iff st c

/-- C2: a call to EnterFunc (or EnterFuncLit) by a task already known to the
registry returns proceed = true with a context carrying that task's identity;
exactly when that task is the followed task and the mode is not run, it
increments currentDepth and, if the justLeft flag is set, also increments
debuggerDepth and clears the flag; in all other cases no session-state field
changes. -/
theorem C2_enterFunc_known (st : DebugState) (g : Nat) :
    ((EnterFunc st (some g)).2 = (some ⟨g⟩, true) ∧
      (EnterFuncLit st (some g)).2 = (some ⟨g⟩, true)) ∧
    ((g = st.currentGoroutine ∧ st.currentState ≠ Mode.run) →
      (EnterFunc st (some g)).1 =
        (if st.justLeft then
          { st with
              currentDepth := st.currentDepth + 1
              debuggerDepth := st.debuggerDepth + 1
              justLeft := false }
        else { st with currentDepth := st.currentDepth + 1 }) ∧
      (EnterFuncLit st (some g)).1 = (EnterFunc st (some g)).1) ∧
    (¬(g = st.currentGoroutine ∧ st.currentState ≠ Mode.run) →
      (EnterFunc st (some g)).1 = st ∧ (EnterFuncLit st (some g)).1 = st) := by
  by_cases hc : g = st.currentGoroutine ∧ st.currentState ≠ Mode.run
  · by_cases hj : st.justLeft <;> simp [EnterFunc, EnterFuncLit, hc, hj]
  · simp [EnterFunc, EnterFuncLit, hc]

/-- Witness for C2 at a concrete state with the justLeft flag set. -/
theorem C2_enterFunc_known_witness :
    ((4 = c2State.currentGoroutine ∧ c2State.currentState ≠ Mode.run) ∧
      (EnterFunc c2State (some 4)).1 =
        (if c2State.justLeft then
          { c2State with
              currentDepth := c2State.currentDepth + 1
              debuggerDepth := c2State.debuggerDepth + 1
              justLeft := false }
        else { c2State with currentDepth := c2State.currentDepth + 1 }) ∧
      (EnterFuncLit c2State (some 4)).1 = (EnterFunc c2State (some 4)).1) :=
  ⟨⟨rfl, by decide⟩, (C2_enterFunc_known c2State 4).2.1 ⟨rfl, by decide⟩⟩

/-- C3: ExitFunc(ctx) is a no-op when ctx's identity is not the followed task
or the mode is run; otherwise it decrements currentDepth and, exactly when
the mode is next and currentDepth equals debuggerDepth on entry, it also
decrements debuggerDepth and sets the justLeft flag. -/
theorem C3_exitFunc (st : DebugState) (c : Context) :
    ((c.goroutine ≠ st.currentGoroutine ∨ st.currentState = Mode.run) →
      ExitFunc st c = st) ∧
    (c.goroutine = st.currentGoroutine → st.currentState ≠ Mode.run →
      ExitFunc st c =
        (if st.currentState = Mode.next ∧ st.currentDepth = st.debuggerDepth then
          { st with
              currentDepth := st.currentDepth - 1
              debuggerDepth := st.debuggerDepth - 1
              justLeft := true }
        else { st with currentDepth := st.currentDepth - 1 })) := by
  constructor
  · rintro (hne | hrun)
    · have hne2 : st.currentGoroutine ≠ c.goroutine := fun hh => hne hh.symm
      simp [ExitFunc, hne2]
    · by_cases hg : st.currentGoroutine ≠ c.goroutine
      · simp [ExitFunc, hg]
      · simp [ExitFunc, hg, hrun]
  · intro hg hrun
    have hg2 : ¬st.currentGoroutine ≠ c.goroutine := by simp [hg.symm]
    by_cases hnx : st.currentState = Mode.next ∧ st.currentDepth = st.debuggerDepth <;>
      simp [ExitFunc, hg2, hrun, hnx]

/-- Witness for C3 at a concrete state in next mode at the pause depth. -/
theorem C3_exitFunc_witness :
    ((3 : Nat) = c3State.currentGoroutine ∧ c3State.currentState ≠ Mode.run ∧
      ExitFunc c3State ⟨3⟩ =
        (if c3State.currentState = Mode.next ∧
            c3State.currentDepth = c3State.debuggerDepth then
          { c3State with
              currentDepth := c3State.currentDepth - 1
              debuggerDepth := c3State.debuggerDepth - 1
              justLeft := true }
        else { c3State with currentDepth := c3State.currentDepth - 1 })) :=
  ⟨rfl, by decide, (C3_exitFunc c3State ⟨3⟩).2 rfl (by decide)⟩

/-- C4: every event (enter, exit, line, branch-arm, select, defer, else-if)
reported with a context whose identity differs from the currently followed
task, in every mode, does not pause (the command loop is not invoked) and
leaves currentDepth and debuggerDepth unchanged. -/
theorem C4_nonfollowed_events (h : Heap) (st : DebugState) (inp : List String)
    (c : Context) (s : Scope) (ln : Int)
    (hne : c.goroutine ≠ st.currentGoroutine) :
    (EnterFunc st (some c.goroutine)).1 = st ∧
    (EnterFuncLit st (some c.goroutine)).1 = st ∧
    ExitFunc st c = st ∧
    depthsPreservedNoPause st inp (Line h c s ln st inp) ∧
    depthsPreservedNoPause st inp (Case h c s ln st inp) ∧
    depthsPreservedNoPause st inp (Comm h c s ln st inp) ∧
    depthsPreservedNoPause st inp (Select h c s ln st inp) ∧
    depthsPreservedNoPause st inp (EndSelect c st inp) ∧
    depthsPreservedNoPause st inp (Defer h c s ln st inp) ∧
    depthsPreservedNoPause st inp (ElseIfSimpleStmt h c s ln st inp) ∧
    depthsPreservedNoPause st inp (ElseIfExpr h c s ln st inp) := by
  have hgne : st.currentGoroutine ≠ c.goroutine := fun hh => hne hh.symm
  have hcond : ¬(c.goroutine = st.currentGoroutine ∧ st.currentState ≠ Mode.run) :=
    fun hh => hne hh.1
  have hsp := shouldPause_false_of_ne st c hne
  have hLine : Line h c s ln st inp = .ok (st, [], inp, false) :=
    lineWithPrefix_of_not_pause h c s ln "" st inp hsp
  have hDefer : Defer h c s ln st inp = .ok (st, [], inp, false) :=
    lineWithPrefix_of_not_pause h c s ln "<Running deferred function>: " st inp hsp
  unfold depthsPreservedNoPause
  refine ⟨by simp [EnterFunc, hcond], by simp [EnterFuncLit, hcond],
    by simp [ExitFunc, hgne], ⟨st, [], hLine, rfl, rfl⟩, ⟨st, [], hLine, rfl, rfl⟩,
    ⟨st, [], hLine, rfl, rfl⟩, ⟨st, [], by simp [Select, hsp], rfl, rfl⟩,
    ⟨st, [], by simp [EndSelect, hsp], rfl, rfl⟩, ⟨st, [], hDefer, rfl, rfl⟩,
    ?_, ⟨st, [], by simp [ElseIfExpr, hgne], rfl, rfl⟩⟩
  by_cases hnx : st.currentState = Mode.next
  · exact ⟨{ st with skipNextElseIfExpr := true }, [],
      by simp [ElseIfSimpleStmt, hLine, hnx], rfl, rfl⟩
  · exact ⟨st, [], by simp [ElseIfSimpleStmt, hLine, hnx], rfl, rfl⟩

/-- Witness for C4: events from goroutine 1 while goroutine 0 is followed. -/
theorem C4_nonfollowed_events_witness :
    ((⟨1⟩ : Context).goroutine ≠ c4State.currentGoroutine ∧
      ExitFunc c4State ⟨1⟩ = c4State ∧
      depthsPreservedNoPause c4State []
        (Line heapC4 ⟨1⟩ (.root [] [] ["hello"]) 1 c4State [])) :=
  ⟨by decide,
    (C4_nonfollowed_events heapC4 c4State [] ⟨1⟩ (.root [] [] ["hello"]) 1
      (by decide)).2.2.1,
    (C4_nonfollowed_events heapC4 c4State [] ⟨1⟩ (.root [] [] ["hello"]) 1
      (by decide)).2.2.2.1⟩

/-- Counterexample to C5 as stated: ElseIfSimpleStmt in next mode sets the
skip flag, but the immediately following ElseIfExpr report — here issued
with a context (goroutine 1) other than the followed task — returns before
the flag check and does NOT consume (clear) the flag, contradicting the
claim that the next else-if condition report consumes the flag regardless of
whether it fires. -/
theorem C5_counterexample :
    ElseIfSimpleStmt heapC5 ⟨0⟩ scopeC5 1 c5StateA [] =
      .ok (c5StateB, [], [], false) ∧
    c5StateB.skipNextElseIfExpr = true ∧
    ElseIfExpr heapC5 ⟨1⟩ scopeC5 1 c5StateB [] = .ok (c5StateB, [], [], false) ∧
    c5StateB.skipNextElseIfExpr = true := by
  refine ⟨by decide, rfl, by decide, rfl⟩

/-- C5 (amended): after ElseIfSimpleStmt sets the skip flag while the mode is
next, the next ElseIfExpr report whose context identity equals the followed
task consumes (clears) the flag and is suppressed once, regardless of whether
that report would otherwise fire; an ElseIfExpr report from a non-followed
task returns early without consuming the flag; once the flag is clear an
ElseIfExpr report behaves exactly like a plain line report. -/
theorem C5_elseIf_skip_amended (h : Heap) (st : DebugState) (c : Context)
    (s : Scope) (ln : Int) (inp : List String) :
    (st.skipNextElseIfExpr = true → c.goroutine = st.currentGoroutine →
      ElseIfExpr h c s ln st inp =
        .ok ({ st with skipNextElseIfExpr := false }, [], inp, false)) ∧
    (c.goroutine ≠ st.currentGoroutine →
      ElseIfExpr h c s ln st inp = .ok (st, [], inp, false)) ∧
    (st.skipNextElseIfExpr = false →
      ElseIfExpr h c s ln st inp = Line h c s ln st inp) ∧
    (∀ st1 outs rem p, Line h c s ln st inp = .ok (st1, outs, rem, p) →
      ElseIfSimpleStmt h c s ln st inp =
        .ok (if st1.currentState = Mode.next
          then ({ st1 with skipNextElseIfExpr := true }, outs, rem, p)
          else (st1, outs, rem, p))) := by
  refine ⟨?_, ?_, ?_, ?_⟩
  · intro hskip hg
    have hgne2 : ¬st.currentGoroutine ≠ c.goroutine := by simp [hg.symm]
    simp [ElseIfExpr, hgne2, hskip]
  · intro hnef
    have hgne3 : st.currentGoroutine ≠ c.goroutine := fun hh => hnef hh.symm
    simp [ElseIfExpr, hgne3]
  · intro hskip
    by_cases hg : st.currentGoroutine ≠ c.goroutine
    · have hsp := shouldPause_false_of_ne st c (fun hh => hg hh.symm)
      rw [show Line h c s ln st inp = .ok (st, [], inp, false) from
        lineWithPrefix_of_not_pause h c s ln "" st inp hsp]
      simp [ElseIfExpr, hg]
    · simp [ElseIfExpr, hg, hskip]
  · intro st1 outs rem p hr
    by_cases hnx : st1.currentState = Mode.next <;>
      simp [ElseIfSimpleStmt, hr, hnx]

/-- Witness for the amended C5 at the concrete scenario state: the followed
task's ElseIfExpr consumes the flag and is suppressed. -/
theorem C5_elseIf_skip_amended_witness :
    (c5StateB.skipNextElseIfExpr = true ∧
      (⟨0⟩ : Context).goroutine = c5StateB.currentGoroutine ∧
      ElseIfExpr heapC5 ⟨0⟩ scopeC5 1 c5StateB [] =
        .ok ({ c5StateB with skipNextElseIfExpr := false }, [], [], false)) :=
  ⟨rfl, rfl, (C5_elseIf_skip_amended heapC5 c5StateB ⟨0⟩ scopeC5 1 []).1 rfl rfl⟩

/-- C6: SetTraceGen is a no-op on all session state when the mode is not run;
when the mode is run, it sets the followed task to ctx's identity and the
mode to step. -/
theorem C6_setTraceGen (st : DebugState) (ctx : Context) :
    (st.currentState ≠ Mode.run → SetTraceGen st ctx = st) ∧
    (st.currentState = Mode.run →
      SetTraceGen st ctx =
        { st with currentGoroutine := ctx.goroutine, currentState := Mode.step }) := by
  constructor <;> intro hr <;> simp [SetTraceGen, hr]

/-- Witness for C6 at a concrete run-mode state. -/
theorem C6_setTraceGen_witness :
    (c6State.currentState = Mode.run ∧
      SetTraceGen c6State ⟨3⟩ =
        { c6State with currentGoroutine := (3 : Nat), currentState := Mode.step }) :=
  ⟨rfl, (C6_setTraceGen c6State ⟨3⟩).2 rfl⟩

/-- C7: Scope.Declare and Scope.Constant abort with a descriptive panic if
and only if the argument list has an odd number of elements or some element
in a name (even-index) position is not a string; on every well-formed list of
name/value pairs they add each binding to the respective map without
aborting. -/
theorem C7_declare_constant (s : Scope) (nv : List GoVal) :
    ((∃ e, s.Declare nv = .error e) ↔ malformedArgs nv) ∧
    ((∃ e, s.Constant nv = .error e) ↔ malformedArgs nv) ∧
    (¬malformedArgs nv →
      s.Declare nv = .ok (s.withVars (insertAll s.vars (pairsWF nv))) ∧
      s.Constant nv = .ok (s.withConsts (insertAll s.consts (pairsWF nv)))) := by
  refine ⟨?_, ?_, ?_⟩
  · rw [← addIdents_error_iff nv s.vars "Declare"]
    unfold Scope.Declare
    cases haa : addIdents s.vars "Declare" nv <;> simp [haa]
  · rw [← addIdents_error_iff nv s.consts "Constant"]
    unfold Scope.Constant
    cases haa : addIdents s.consts "Constant" nv <;> simp [haa]
  · intro hwf
    constructor
    · unfold Scope.Declare
      rw [addIdents_ok_of_wf nv s.vars "Declare" hwf]
    · unfold Scope.Constant
      rw [addIdents_ok_of_wf nv s.consts "Constant" hwf]

/-- Witness for C7: a well-formed two-pair list is added without aborting. -/
theorem C7_declare_constant_witness :
    (¬malformedArgs [.str "x", .ptr 0, .str "y", .int 2] ∧
      Scope.Declare (.root [] [] []) [.str "x", .ptr 0, .str "y", .int 2] =
        .ok ((Scope.root [] [] []).withVars
          (insertAll (Scope.root [] [] []).vars
            (pairsWF [.str "x", .ptr 0, .str "y", .int 2]))) ∧
      Scope.Constant (.root [] [] []) [.str "x", .ptr 0, .str "y", .int 2] =
        .ok ((Scope.root [] [] []).withConsts
          (insertAll (Scope.root [] [] []).consts
            (pairsWF [.str "x", .ptr 0, .str "y", .int 2])))) := by
  have hwf : ¬malformedArgs [.str "x", .ptr 0, .str "y", .int 2] := by
    rw [malformedArgs_cons_cons, malformedArgs_cons_cons]
    simp [malformedArgs, isStrVal]
  exact ⟨hwf,
    (C7_declare_constant (.root [] [] []) [.str "x", .ptr 0, .str "y", .int 2]).2.2 hwf⟩

/-- C8: once end of input is reached on the command stream while paused, the
command loop prints a termination notice and forces the mode to run, and from
any run-mode state no subsequent reported event from any task pauses (the
command loop is never invoked) and the mode remains run. -/
theorem C8_eof_never_pauses_again (h : Heap) (scope : Scope) (ln : Int)
    (st : DebugState) (ps : ProcState) (evs : List Event) :
    (waitForInput h scope ln st [] =
      .ok ({ st with currentState := Mode.run },
        ["(godebug) ", "quitting session"], [])) ∧
    (ps.1.currentState = Mode.run →
      ∃ psf, runTrace h ps evs = .ok (psf, false) ∧
        psf.1.currentState = Mode.run) :=
  ⟨rfl, runTrace_run evs h ps⟩

/-- Witness for C8: a concrete run-mode trace with one event of each basic
kind never pauses. -/
theorem C8_eof_never_pauses_again_witness :
    (c8Proc.1.currentState = Mode.run ∧
      ∃ psf, runTrace heapC8 c8Proc
        [Event.enter (some 0), Event.lineE ⟨0⟩ (.root [] [] ["hello"]) 1,
          Event.elseIfExprE ⟨0⟩ (.root [] [] ["hello"]) 1, Event.exitF ⟨0⟩] =
        .ok (psf, false) ∧ psf.1.currentState = Mode.run) :=
  ⟨rfl,
    (C8_eof_never_pauses_again heapC8 (.root [] [] ["hello"]) 1 c8Proc.1 c8Proc
      [Event.enter (some 0), Event.lineE ⟨0⟩ (.root [] [] ["hello"]) 1,
        Event.elseIfExprE ⟨0⟩ (.root [] [] ["hello"]) 1, Event.exitF ⟨0⟩]).2 rfl⟩

/-- C9: identifier lookup resolves to the innermost scope that binds the
name, and within each scope checks variable slots (returning the
dereferenced live value) before constants; in particular, when a child scope
and its parent both declare x, lookup in the child returns the child's
value. -/
theorem C9_getIdent_innermost :
    (∀ (h : Heap) (s : Scope) (name : String),
      Scope.getIdent h s name = specResolve h s name) ∧
    Scope.getIdent heapC9 childC9 "x" = .ok (some (.int 10)) ∧
    Scope.getIdent heapC9 parentC9 "x" = .ok (some (.int 20)) :=
  ⟨getIdent_eq_specResolve, by decide, by decide⟩

/-- C10: a line report built on lineWithPrefix (Line, Defer and the other
markers) indexes fileText at line - 1 with no bounds check when shouldPause
holds, so it is free of an out-of-range panic exactly under the precondition
1 <= line <= length fileText; when shouldPause is false the call is total and
does nothing for every line number. -/
theorem C10_lineWithPrefix_bounds (h : Heap) (c : Context) (s : Scope)
    (line : Int) (pre : String) (st : DebugState) (inp : List String) :
    (Line h c s line st inp = lineWithPrefix h c s line "" st inp) ∧
    (Defer h c s line st inp =
      lineWithPrefix h c s line "<Running deferred function>: " st inp) ∧
    (shouldPause st c = false →
      lineWithPrefix h c s line pre st inp = .ok (st, [], inp, false)) ∧
    (shouldPause st c = true →
      ( lineWithPrefix h c s line pre st inp = .error GoPanic.indexOutOfRange ↔
        ¬(1 ≤ line ∧ line ≤ (s.fileText.length : Int)))) := by
  refine ⟨rfl, rfl, lineWithPrefix_of_not_pause h c s line pre st inp, ?_⟩
  intro hsp
  unfold lineWithPrefix indexFileText
  simp only [hsp, eq_self_iff_true, if_true]
  by_cases hb : 0 ≤ line - 1 ∧ line - 1 < (s.fileText.length : Int)
  · rw [if_pos hb]
    cases hres : waitForInput h s line
        { st with debuggerDepth := st.currentDepth, justLeft := false } inp with
    | error e =>
      have hne := waitForInput_ne_indexErr inp h s line
        { st with debuggerDepth := st.currentDepth, justLeft := false }
      rw [hres] at hne
      have he2 : e ≠ GoPanic.indexOutOfRange := fun hh => hne (by rw [hh])
      simp [hres, he2]
      omega
    | ok r =>
      obtain ⟨st2, outs, rem⟩ := r
      simp [hres]
      omega
  · rw [if_neg hb]
    simp
    omega

/-- Witness for C10: a pausing line report at line 5 of a one-line file is
exactly the out-of-range panic. -/
theorem C10_lineWithPrefix_bounds_witness :
    (shouldPause c10State ⟨0⟩ = true ∧
      ( lineWithPrefix heapC10 ⟨0⟩ (.root [] [] ["hello"]) 5 "" c10State [] =
          .error GoPanic.indexOutOfRange ↔
        ¬(1 ≤ (5 : Int) ∧ (5 : Int) ≤ ((Scope.root [] [] ["hello"]).fileText.length : Int)))) :=
  ⟨by decide,
    (C10_lineWithPrefix_bounds heapC10 ⟨0⟩ (.root [] [] ["hello"]) 5 "" c10State []).2.2.2
      (by decide)⟩

end Godebug
